import Mathlib

/-!
Verification of the workspace-folder reconciler (extHostWorkspace.ts)
and the localization update script (update-localization-extension.js).

Shallow embedding notes:

* A URI is modelled as its path string (`uri.toString()`, `uri.path` and
  `uri.fsPath` all coincide in this model, and `URI.revive` is the identity).
  `isLinux` is taken to be true, so `isFolderEqual` is case-sensitive string
  equality and the `ignoreCase` branch of `resources.isEqual` is dead.
* JavaScript object identity of mutable folder objects is modelled by a
  numeric identity field `fid` carried by every folder record; constructing a
  fresh folder consumes a fresh `fid` from a counter threaded through the
  operations.  Updating `name`/`index` of an existing folder keeps its `fid`.
* `Array.prototype.sort` is modelled as the V8 insertion sort used for the
  small arrays in scope: elements are taken left to right and each element is
  inserted in front of the first already-placed element `y` with
  `cmp y x = .gt`.  The comparators are passed through unchanged, so a
  comparator that never returns 0 (the index comparator below) places
  equal-keyed elements in reverse arrival order, exactly as the engine does.
* Fallible JavaScript code (thrown `TypeError`s, `fs` errors) is modelled with
  `Except`/`Option` results.
-/

/-- `isEqual(folderA, folderB, !isLinux)` from vs/base/common/resources, under
the case-sensitive (`isLinux = true`) model: plain string equality of URIs. -/
def isFolderEqual (a b : String) : Bool :=
  a == b

/-- `compare` from vs/base/common/strings: `a < b ? -1 : a > b ? 1 : 0`. -/
def cmpStr (a b : String) : Ordering :=
  if a < b then .lt else if b < a then .gt else .eq

/-- One incoming folder descriptor of `IWorkspaceData` (uri, name, index). -/
structure FolderData where
  uri : String
  name : String
  index : Int
deriving DecidableEq

/-- `IWorkspaceData`: id, name and the flat folder descriptor list.  The
`configuration` field is never read by the code under verification and is
omitted. -/
structure WorkspaceData where
  id : String
  name : String
  folders : List FolderData
deriving DecidableEq

/-- A `MutableWorkspaceFolder` object: `fid` is the JavaScript object
identity, the remaining fields are `uri`, `name`, `index`. -/
structure Folder where
  fid : Nat
  uri : String
  name : String
  index : Int
deriving DecidableEq

/-- `compareWorkspaceFolderByUri`. -/
def compareWorkspaceFolderByUri (a b : Folder) : Ordering :=
  if isFolderEqual a.uri b.uri then .eq else cmpStr a.uri b.uri

/-- `compareWorkspaceFolderByUriAndNameAndIndex`. -/
def compareWorkspaceFolderByUriAndNameAndIndex (a b : Folder) : Ordering :=
  if a.index ≠ b.index then (if a.index < b.index then .lt else .gt)
  else if isFolderEqual a.uri b.uri then cmpStr a.name b.name
  else cmpStr a.uri b.uri

/-- The comparator of the `newWorkspaceFolders.sort` call in
`toExtHostWorkspace`: `(f1, f2) => f1.index < f2.index ? -1 : 1`; note that it
never returns 0. -/
def compareByIndexOnly (a b : Folder) : Ordering :=
  if a.index < b.index then .lt else .gt

/-- One step of the `Array.prototype.sort` model: insert `x` in front of the
first element `y` of the already sorted list with `cmp y x = .gt` (the V8
insertion sort shifts `y` right exactly while `cmp y x > 0`). -/
def sortInsert (cmp : α → α → Ordering) (x : α) : List α → List α
  | [] => [x]
  | y :: ys => if cmp y x = .gt then x :: y :: ys else y :: sortInsert cmp x ys

/-- `Array.prototype.sort(cmp)` modelled as left-to-right insertion sort. -/
def jsSort (cmp : α → α → Ordering) (l : List α) : List α :=
  l.foldl (fun acc x => sortInsert cmp x acc) []

/-- Modelled from the spec: `delta` of vs/base/common/arrays (the file is not
part of this repository slice).  Per the spec it is a
"longest-common-subsequence-style set difference" over two lists already
sorted by `cmp`: a synchronized merge walk collecting unmatched elements of
`before` as `removed` (first component) and unmatched elements of `after` as
`added` (second component).  The `while (true)` loop is written with a fuel
counter; every iteration consumes at least one element of one of the lists,
so `before.length + after.length` steps always suffice. -/
def arrayDeltaLoop (cmp : α → α → Ordering) : Nat → List α → List α → List α × List α
  | 0, bs, ys => (bs, ys)
  | _ + 1, [], ys => ([], ys)
  | _ + 1, b :: bs, [] => (b :: bs, [])
  | fuel + 1, b :: bs, a :: ys =>
    match cmp b a with
    | .eq => arrayDeltaLoop cmp fuel bs ys
    | .lt => let r := arrayDeltaLoop cmp fuel bs (a :: ys); (b :: r.1, r.2)
    | .gt => let r := arrayDeltaLoop cmp fuel (b :: bs) ys; (r.1, a :: r.2)

def arrayDelta (cmp : α → α → Ordering) (before afterL : List α) : List α × List α :=
  arrayDeltaLoop cmp (before.length + afterL.length) before afterL

/-- The local `delta` helper of extHostWorkspace.ts: sort copies of both lists
with the comparator, then run the array delta.  Returns
`(removed, added)`. -/
def deltaFolders (cmp : Folder → Folder → Ordering)
    (oldFolders newFolders : List Folder) : List Folder × List Folder :=
  arrayDelta cmp (jsSort cmp oldFolders) (jsSort cmp newFolders)

/-- `ExtHostWorkspaceImpl`: id, name and the folder list.  The base-class
`folders` array always has the same length as `workspaceFolders` and is not
modelled separately. -/
structure ExtHostWorkspaceImpl where
  id : String
  name : String
  workspaceFolders : List Folder
deriving DecidableEq

/-- `ExtHostWorkspaceImpl._findFolder`: first folder whose uri equals the one
sought. -/
def ExtHostWorkspaceImpl.findFolder (ws : ExtHostWorkspaceImpl)
    (folderUriToFind : String) : Option Folder :=
  ws.workspaceFolders.find? (fun f => isFolderEqual f.uri folderUriToFind)

/-- The merge loop of `toExtHostWorkspace` when a previous confirmed workspace
exists: for each incoming descriptor (at `forEach` position `pos`), reuse the
matching folder of `searchWs` (updating `name` and `index` to the incoming
values, keeping its identity) or construct a fresh folder whose `index` is the
`forEach` position `pos`.  `nid` is the fresh-identity counter. -/
def mergeFolders (searchWs : ExtHostWorkspaceImpl) :
    Nat → Nat → List FolderData → List Folder × Nat
  | nid, _, [] => ([], nid)
  | nid, pos, fd :: rest =>
    match searchWs.findFolder fd.uri with
    | some existing =>
      let r := mergeFolders searchWs nid (pos + 1) rest
      ({ existing with name := fd.name, index := fd.index } :: r.1, r.2)
    | none =>
      let r := mergeFolders searchWs (nid + 1) (pos + 1) rest
      ({ fid := nid, uri := fd.uri, name := fd.name, index := (pos : Int) } :: r.1, r.2)

/-- The no-previous-workspace branch of `toExtHostWorkspace`: construct all
folders fresh, keeping the incoming `index`. -/
def freshFolders : Nat → List FolderData → List Folder × Nat
  | nid, [] => ([], nid)
  | nid, fd :: rest =>
    let r := freshFolders (nid + 1) rest
    ({ fid := nid, uri := fd.uri, name := fd.name, index := fd.index } :: r.1, r.2)

/-- The folder list built by the `toExtHostWorkspace` body before the sort:
the merge loop when a previous confirmed workspace exists (searching the
unconfirmed workspace if present, else the confirmed one), the all-fresh
construction otherwise. -/
def builtFolders (d : WorkspaceData) (c u : Option ExtHostWorkspaceImpl)
    (nid : Nat) : List Folder × Nat :=
  match c with
  | some oldWs => mergeFolders (u.getD oldWs) nid 0 d.folders
  | none => freshFolders nid d.folders

/-- The folder list the delta is computed against:
`oldWorkspace ? oldWorkspace.workspaceFolders : []`. -/
def oldFoldersOf : Option ExtHostWorkspaceImpl → List Folder
  | some w => w.workspaceFolders
  | none => []

/-- Result of `ExtHostWorkspaceImpl.toExtHostWorkspace`, plus the advanced
identity counter. -/
structure MergeResult where
  workspace : Option ExtHostWorkspaceImpl
  added : List Folder
  removed : List Folder
  nextId : Nat
deriving DecidableEq

/-- `ExtHostWorkspaceImpl.toExtHostWorkspace`.  Null `data` yields a null
workspace and empty delta.  Otherwise the incoming descriptors are merged
against the previous unconfirmed workspace if present, else the previous
confirmed one — but only when a previous *confirmed* workspace exists at all —
the merged list is re-sorted with the index-only comparator, and the delta of
the new folder list against the previous confirmed folder list is computed
with the uri-only comparator. -/
def toExtHostWorkspace (data : Option WorkspaceData)
    (previousConfirmed previousUnconfirmed : Option ExtHostWorkspaceImpl)
    (nid : Nat) : MergeResult :=
  match data with
  | none => ⟨none, [], [], nid⟩
  | some d =>
    let built := builtFolders d previousConfirmed previousUnconfirmed nid
    let newFolders := jsSort compareByIndexOnly built.1
    let ws : ExtHostWorkspaceImpl := ⟨d.id, d.name, newFolders⟩
    let rem_add :=
      deltaFolders compareWorkspaceFolderByUri (oldFoldersOf previousConfirmed) newFolders
    ⟨some ws, rem_add.2, rem_add.1, built.2⟩

/-- `dirname` of the node path module, modelled from the spec ("substitute
`location`'s parent path"): drop the last path segment; a path without '/'
has parent ".", and the parent of a top-level entry is "/". -/
def dirnameStr (p : String) : String :=
  if p.data.contains '/' then
    let kept := (p.data.reverse.dropWhile (fun c => c ≠ '/')).reverse
    let kept2 := kept.dropLast
    if kept2 = [] then "/" else String.mk kept2
  else "."

/-- `basenameOrAuthority`, modelled from the spec ("the last path segment or
host name of `location`"): the segment after the last '/' (authorities do not
occur in the path-string URI model). -/
def basenameOrAuthority (p : String) : String :=
  String.mk ((p.data.reverse.takeWhile (fun c => c ≠ '/')).reverse)

/-- `TernarySearchTree.get` on the tree built by inserting every folder keyed
by its uri, modelled from the spec: exact-key lookup; a later `set` with an
equal key overwrites an earlier one, hence the search from the back. -/
def lookupUriExact (fs : List Folder) (u : String) : Option Folder :=
  fs.reverse.find? (fun f => f.uri == u)

/-- Path-ancestry test: `base` equals `q` or is a whole-segment ancestor of
`q` (`TernarySearchTree.forPaths` keys are split on '/').  Written on the
character lists so that it evaluates inside the kernel. -/
def isBaseOf (base q : String) : Bool :=
  base == q || (base ++ "/").data.isPrefixOf q.data

/-- `TernarySearchTree.findSubstr`, modelled from the spec
("longest-matching-prefix lookup over all known folder locations"): the folder
whose uri is the longest path-ancestor of the query; on duplicate uris the
later insertion wins. -/
def findSubstr (fs : List Folder) (q : String) : Option Folder :=
  match fs with
  | [] => none
  | f :: rest =>
    match findSubstr rest q with
    | none => if isBaseOf f.uri q then some f else none
    | some g =>
      if isBaseOf f.uri q && decide (g.uri.length < f.uri.length) then some f else some g

/-- `ExtHostWorkspaceImpl.getWorkspaceFolder`: with `resolveParent` set and
the uri stored in the structure, look up the parent path instead. -/
def ExtHostWorkspaceImpl.getWorkspaceFolder (ws : ExtHostWorkspaceImpl)
    (uri : String) (resolveParent : Bool) : Option Folder :=
  let u :=
    if resolveParent && (lookupUriExact ws.workspaceFolders uri).isSome then
      dirnameStr uri
    else uri
  findSubstr ws.workspaceFolders u

/-- The event payload fired on `onDidChangeWorkspace`. -/
structure FolderChangeEvent where
  added : List Folder
  removed : List Folder
deriving DecidableEq

/-- One `$updateWorkspaceFolders` request sent to the main-thread proxy. -/
structure FolderToAdd where
  uri : String
  name : Option String
deriving DecidableEq

structure ProxyCall where
  extensionName : String
  index : Int
  deleteCount : Int
  foldersToAdd : List FolderToAdd
deriving DecidableEq

/-- The mutable fields of `ExtHostWorkspace`, plus the fresh-identity counter
and the log of fired folder-change events. -/
structure ExtHostWorkspaceState where
  confirmed : Option ExtHostWorkspaceImpl
  unconfirmed : Option ExtHostWorkspaceImpl
  nextId : Nat
  events : List FolderChangeEvent
deriving DecidableEq

/-- `this._actualWorkspace`: `this._unconfirmedWorkspace || this._confirmedWorkspace`. -/
def actualWorkspace (st : ExtHostWorkspaceState) : Option ExtHostWorkspaceImpl :=
  match st.unconfirmed with
  | some w => some w
  | none => st.confirmed

/-- `$acceptWorkspaceData`: merge, overwrite the confirmed workspace, drop the
unconfirmed one, and fire exactly one change event with the computed delta. -/
def acceptWorkspaceData (st : ExtHostWorkspaceState) (data : Option WorkspaceData) :
    ExtHostWorkspaceState :=
  let r := toExtHostWorkspace data st.confirmed st.unconfirmed st.nextId
  { confirmed := r.workspace, unconfirmed := none, nextId := r.nextId,
    events := st.events ++ [⟨r.added, r.removed⟩] }

/-- `trySetWorkspaceData`: if a workspace exists, store the merge of the data
against it as the unconfirmed workspace and report `true`; otherwise `false`. -/
def trySetWorkspaceData (st : ExtHostWorkspaceState) (data : WorkspaceData) :
    Bool × ExtHostWorkspaceState :=
  match actualWorkspace st with
  | some _ =>
    let r := toExtHostWorkspace (some data) (actualWorkspace st) none st.nextId
    (true, { st with unconfirmed := r.workspace, nextId := r.nextId })
  | none => (false, st)

/-- `folderToAdd.name || basenameOrAuthority(folderToAdd.uri)`: an absent or
empty name falls back to the basename. -/
def effectiveName (n : Option String) (uri : String) : String :=
  match n with
  | some s => if s = "" then basenameOrAuthority uri else s
  | none => basenameOrAuthority uri

/-- The validation loop of `updateWorkspaceFolders`: keep the first occurrence
of each uri, materializing the effective name. -/
def validateDistinct (toAdd : List FolderToAdd) : List FolderToAdd :=
  toAdd.foldl
    (fun acc f =>
      if acc.any (fun g => isFolderEqual g.uri f.uri) then acc
      else acc ++ [{ uri := f.uri, name := some (effectiveName f.name f.uri) }])
    []

/-- The fresh folder objects built by the `splice` call; their `index` is
still unset (0 here) and is assigned by the fix-up pass right after. -/
def insertedFolders (nid : Nat) : List FolderToAdd → List Folder
  | [] => []
  | f :: rest =>
    { fid := nid, uri := f.uri, name := effectiveName f.name f.uri, index := 0 } ::
      insertedFolders (nid + 1) rest

/-- `newWorkspaceFolders.forEach((f, index) => f.index = index)` starting at
position `i`. -/
def fixIndexes : Nat → List Folder → List Folder
  | _, [] => []
  | i, f :: fs => { f with index := (i : Int) } :: fixIndexes (i + 1) fs

/-- The in-place effect of the fix-up pass on the *current* folder list: the
surviving prefix and suffix objects are the same objects as in the new list
and receive their new positions, while the `deleteCount` removed objects keep
their old `index`. -/
def mutatedCurrent (current : List Folder) (idx dc ins : Nat) : List Folder :=
  fixIndexes 0 (current.take idx) ++ (current.drop idx).take dc ++
    fixIndexes (idx + ins) (current.drop (idx + dc))

/-- Outcome of `updateWorkspaceFolders`: the boolean result or a thrown
`TypeError`, the state after the call (including in-place index mutations),
and the `$updateWorkspaceFolders` request sent to the proxy, if any. -/
structure UpdateResult where
  accepted : Except String Bool
  state : ExtHostWorkspaceState
  sent : Option ProxyCall

/-- Write the (possibly index-mutated) folder-object list back into the
workspace object it came from — the unconfirmed workspace when present, else
the confirmed one (`this._actualWorkspace`). -/
def writeActualFolders (st : ExtHostWorkspaceState) (fs : List Folder) :
    ExtHostWorkspaceState :=
  match st.unconfirmed with
  | some w => { st with unconfirmed := some { w with workspaceFolders := fs } }
  | none =>
    match st.confirmed with
    | some w => { st with confirmed := some { w with workspaceFolders := fs } }
    | none => st

/-- `ExtHostWorkspace.updateWorkspaceFolders`.  Mirrors the source: validate
and de-duplicate the folders to add, validate the numbers, splice, renumber
every folder of the spliced list in place, compute the delta with the
uri/name/index comparator, and if anything changed send the request to the
proxy and optimistically apply the data locally.  When no workspace exists the
data-building expression dereferences `this._actualWorkspace.id` on
`undefined`, which throws a `TypeError` after the proxy request was already
sent. -/
def updateWorkspaceFolders (st : ExtHostWorkspaceState) (extensionName : String)
    (index deleteCount : Int) (workspaceFoldersToAdd : List FolderToAdd) : UpdateResult :=
  let validated := validateDistinct workspaceFoldersToAdd
  if index < 0 ∨ deleteCount < 0 then ⟨.ok false, st, none⟩
  else if deleteCount = 0 ∧ validated = [] then ⟨.ok false, st, none⟩
  else
    let current := (actualWorkspace st).elim [] ExtHostWorkspaceImpl.workspaceFolders
    if (current.length : Int) < index + deleteCount then ⟨.ok false, st, none⟩
    else
      let idx := index.toNat
      let dc := deleteCount.toNat
      let inserted := insertedFolders st.nextId validated
      let spliced := current.take idx ++ inserted ++ current.drop (idx + dc)
      let newFolders := fixIndexes 0 spliced
      let currentMutated := mutatedCurrent current idx dc validated.length
      let st1 := writeActualFolders { st with nextId := st.nextId + validated.length } currentMutated
      let rem_add := deltaFolders compareWorkspaceFolderByUriAndNameAndIndex currentMutated newFolders
      if rem_add.2 = [] ∧ rem_add.1 = [] then ⟨.ok false, st1, none⟩
      else
        let call : ProxyCall := ⟨extensionName, index, deleteCount, validated⟩
        match actualWorkspace st1 with
        | none => ⟨.error "TypeError", st1, some call⟩
        | some aw =>
          let r := trySetWorkspaceData st1
            ⟨aw.id, aw.name, newFolders.map (fun f => ⟨f.uri, f.name, f.index⟩)⟩
          ⟨.ok r.1, r.2, some call⟩

/-- node `relative(from, to)`, modelled from the spec for the in-scope case
("the path of the input relative to the containing folder's location"): the
containing folder's location is an ancestor of the input by construction. -/
def relativeTo (base p : String) : String :=
  if base == p then ""
  else if (base ++ "/").data.isPrefixOf p.data then String.mk (p.data.drop (base.length + 1))
  else p

/-- `normalize(result, true)` of vs/base/common/paths, modelled from the spec
("normalizes directory separators to the platform-neutral form"): separators
are already '/' in this model and no dot segments occur, so it is the
identity. -/
def normalizeStr (p : String) : String := p

/-- `ExtHostWorkspace.getWorkspaceFolder`. -/
def hostGetWorkspaceFolder (st : ExtHostWorkspaceState) (uri : String)
    (resolveParent : Bool) : Option Folder :=
  match actualWorkspace st with
  | none => none
  | some ws => ws.getWorkspaceFolder uri resolveParent

/-- `ExtHostWorkspace.getRelativePath` (string input; the empty string is the
falsy input returned unchanged). -/
def getRelativePath (st : ExtHostWorkspaceState) (path : String)
    (includeWorkspace : Option Bool) : String :=
  if path = "" then path
  else
    match hostGetWorkspaceFolder st path true with
    | none => path
    | some folder =>
      let inc := includeWorkspace.getD
        (((actualWorkspace st).elim 0 (·.workspaceFolders.length)) > 1)
      let result := relativeTo folder.uri path
      let result := if inc then folder.name ++ "/" ++ result else result
      normalizeStr result

/-- One entry of the manifest's `localizations` contribution.  `Option`
models an absent JSON field; an empty string is as falsy as an absent one for
the script's checks. -/
structure LocalizationEntry where
  languageId : Option String
  languageName : Option String
  translations : Option String
  server : Option String
  userName : Option String
  transifexId : Option String
deriving DecidableEq

structure Contributes where
  localizations : Option (List LocalizationEntry)
deriving DecidableEq

structure PackageJSON where
  contributes : Option Contributes
deriving DecidableEq

inductive FsNode
  | dir
  | file
deriving DecidableEq

/-- The filesystem and environment the script runs against: the kind of entry
at each path, the parsed `package.json` found at a path (absent when reading
or parsing would throw), and the `TRANSIFEX_API_TOKEN` variable. -/
structure ScriptEnv where
  nodes : String → Option FsNode
  manifests : String → Option PackageJSON
  transifexToken : Option String

/-- JavaScript truthiness of an optional string field. -/
def truthyS : Option String → Bool
  | none => false
  | some s => s != ""

/-- The regular expression of the script (two word characters optionally
followed by '-' and one or more word characters), deciding whether the
argument is a language id rather than a directory path. -/
def isWordChar (c : Char) : Bool :=
  c.isAlphanum || c == '_'

def isLangIdArg (s : String) : Bool :=
  match s.data with
  | [a, b] => isWordChar a && isWordChar b
  | a :: b :: '-' :: rest => isWordChar a && isWordChar b && !rest.isEmpty && rest.all isWordChar
  | _ => false

/-- Outcome of the script: the thrown error, or the list of
(language id, translation data folder) downloads started. -/
inductive ScriptOutcome
  | error (msg : String)
  | ok (downloads : List (String × String))
deriving DecidableEq

/-- `fs.readFileSync(path.join(locExtFolder, 'package.json'))` followed by
`JSON.parse`: only succeeds below an existing directory. -/
def readPackageJSON (env : ScriptEnv) (folder : String) : Option PackageJSON :=
  match env.nodes folder with
  | some .dir => env.manifests (folder ++ "/package.json")
  | _ => none

/-- The `localizations.forEach` body: the first entry missing a truthy
`languageId`, `languageName` or `translations` aborts the script; complete
entries start a download of `transifexId || languageId` into
`locExtFolder/translations`. -/
def processLocalizations (env : ScriptEnv) (locExtFolder : String) :
    List LocalizationEntry → ScriptOutcome
  | [] => .ok []
  | e :: rest =>
    if !truthyS e.languageId || !truthyS e.languageName || !truthyS e.translations then
      .error "Each localization contribution must define properties."
    else
      let languageId := if truthyS e.transifexId then e.transifexId.getD "" else e.languageId.getD ""
      let folder := locExtFolder ++ "/" ++ e.translations.getD ""
      match processLocalizations env locExtFolder rest with
      | .error m => .error m
      | .ok ds => .ok ((languageId, folder) :: ds)

/-- The `update` function of the localization update script.  Notes kept
faithful to the source: `fs.statSync` throws on a missing path, so the
`!locExtStat` half of the directory check is dead, and `!locExtStat.isDirectory`
references the `isDirectory` method without calling it — a function object is
always truthy, so that half is dead too; an existing non-directory target
instead aborts later, when `readFileSync` of `locExtFolder/package.json`
throws. -/
def updateLocalizationExtension (env : ScriptEnv) (idOrPath : Option String) :
    ScriptOutcome :=
  match idOrPath with
  | none => .error "Argument must be the location of the localization extension."
  | some arg =>
    if arg == "" then .error "Argument must be the location of the localization extension."
    else
      let locExtFolder := if isLangIdArg arg then "../vscode-localization-" ++ arg else arg
      match env.nodes locExtFolder with
      | none => .error "ENOENT: no such file or directory, stat"
      | some _ =>
        match readPackageJSON env locExtFolder with
        | none => .error "ENOTDIR: not a directory, open package.json"
        | some pkg =>
          match pkg.contributes with
          | none => .error "The extension must define a localizations contribution."
          | some c =>
            match c.localizations with
            | none => .error "The extension must define a localizations contribution of type array."
            | some locs => processLocalizations env locExtFolder locs

/-! ## Concrete example inputs used by counterexamples and witnesses -/

def fA : Folder := ⟨0, "/a", "old", 0⟩

def wsA : ExtHostWorkspaceImpl := ⟨"w", "w", [fA]⟩

def stA : ExtHostWorkspaceState := ⟨some wsA, none, 1, []⟩

/-- Same single location as `wsA` but with a changed folder name. -/
def dataRenameA : WorkspaceData := ⟨"w", "w", [⟨"/a", "new", 0⟩]⟩

/-- A location unknown to `wsA`, carrying ordinal 5. -/
def dataFreshB : WorkspaceData := ⟨"w", "w", [⟨"/b", "b", 5⟩]⟩

/-- Two folders carrying the same ordinal. -/
def dataTie : WorkspaceData := ⟨"w", "w", [⟨"/a", "a", 0⟩, ⟨"/b", "b", 0⟩]⟩

/-- An unconfirmed workspace holding the folder object with identity 7 at
location "/a". -/
def wsU7 : ExtHostWorkspaceImpl := ⟨"u", "u", [⟨7, "/a", "old", 0⟩]⟩

def wsMulti : ExtHostWorkspaceImpl := ⟨"mw", "mw", [⟨0, "/ws/a", "a", 0⟩, ⟨1, "/ws/b", "b", 1⟩]⟩

def stMulti : ExtHostWorkspaceState := ⟨some wsMulti, none, 2, []⟩

def wsSingle : ExtHostWorkspaceImpl := ⟨"sw", "sw", [⟨0, "/ws/a", "a", 0⟩]⟩

def stSingle : ExtHostWorkspaceState := ⟨some wsSingle, none, 1, []⟩

def stAB : ExtHostWorkspaceState :=
  ⟨some ⟨"w", "w", [⟨0, "/A", "A", 0⟩, ⟨1, "/B", "B", 1⟩]⟩, none, 2, []⟩

def stEmpty : ExtHostWorkspaceState := ⟨none, none, 0, []⟩

def entryGood : LocalizationEntry := ⟨some "de", some "German", some "trans", none, none, none⟩

/-- A localization entry missing `languageName`. -/
def entryBad : LocalizationEntry := ⟨some "de", none, some "trans", none, none, none⟩

def envBadEntry : ScriptEnv :=
  ⟨fun p => if p = "/ext" then some .dir else none,
   fun p => if p = "/ext/package.json" then some ⟨some ⟨some [entryGood, entryBad]⟩⟩ else none,
   none⟩

def envNoContrib : ScriptEnv :=
  ⟨fun p => if p = "/ext" then some .dir else none,
   fun p => if p = "/ext/package.json" then some ⟨none⟩ else none,
   none⟩

def envNoLocs : ScriptEnv :=
  ⟨fun p => if p = "/ext" then some .dir else none,
   fun p => if p = "/ext/package.json" then some ⟨some ⟨none⟩⟩ else none,
   none⟩

/-- "/ext" exists but is a regular file, not a directory. -/
def envFileAt : ScriptEnv :=
  ⟨fun p => if p = "/ext" then some .file else none, fun _ => none, none⟩

/-! ## Infrastructure: the sort model permutes and sorts -/

theorem sortInsert_perm (cmp : α → α → Ordering) (x : α) (l : List α) :
    (sortInsert cmp x l).Perm (x :: l) := by
  induction l with
  | nil => simp [sortInsert]
  | cons y ys ih =>
    rw [sortInsert]
    by_cases h : cmp y x = Ordering.gt
    · simp [h]
    · simp only [h, if_neg]
      exact (ih.cons y).trans (List.Perm.swap x y ys)

theorem jsSort_foldl_perm (cmp : α → α → Ordering) :
    ∀ (l acc : List α), (l.foldl (fun a x => sortInsert cmp x a) acc).Perm (acc ++ l)
  | [], acc => by simp
  | x :: xs, acc => by
    simp only [List.foldl_cons]
    refine (jsSort_foldl_perm cmp xs (sortInsert cmp x acc)).trans ?_
    refine (((sortInsert_perm cmp x acc).append_right xs).trans ?_)
    simpa using (@List.perm_middle _ x acc xs).symm

theorem jsSort_perm (cmp : α → α → Ordering) (l : List α) : (jsSort cmp l).Perm l := by
  simpa [jsSort] using jsSort_foldl_perm cmp l []

theorem jsSort_length (cmp : α → α → Ordering) (l : List α) :
    (jsSort cmp l).length = l.length :=
  (jsSort_perm cmp l).length_eq

theorem sortInsert_pairwise {K : Type} [LinearOrder K] (k : α → K)
    (cmp : α → α → Ordering)
    (hgt : ∀ a b, cmp a b = Ordering.gt → k b ≤ k a)
    (hngt : ∀ a b, cmp a b ≠ Ordering.gt → k a ≤ k b) (x : α) :
    ∀ {l : List α}, l.Pairwise (fun a b => k a ≤ k b) →
      (sortInsert cmp x l).Pairwise (fun a b => k a ≤ k b) := by
  intro l hl
  induction l with
  | nil => simp [sortInsert]
  | cons y ys ih =>
    rcases List.pairwise_cons.mp hl with ⟨hy, hys⟩
    rw [sortInsert]
    by_cases h : cmp y x = Ordering.gt
    · rw [if_pos h]
      refine List.pairwise_cons.mpr ⟨?_, hl⟩
      intro z hz
      rcases List.mem_cons.mp hz with h1 | hz'
      · rw [h1]; exact hgt y x h
      · exact le_trans (hgt y x h) (hy z hz')
    · rw [if_neg h]
      refine List.pairwise_cons.mpr ⟨?_, ih hys⟩
      intro z hz
      rcases List.mem_cons.mp ((sortInsert_perm cmp x ys).mem_iff.mp hz) with h1 | hz'
      · rw [h1]; exact hngt y x h
      · exact hy z hz'

theorem jsSort_pairwise {K : Type} [LinearOrder K] (k : α → K)
    (cmp : α → α → Ordering)
    (hgt : ∀ a b, cmp a b = Ordering.gt → k b ≤ k a)
    (hngt : ∀ a b, cmp a b ≠ Ordering.gt → k a ≤ k b) (l : List α) :
    (jsSort cmp l).Pairwise (fun a b => k a ≤ k b) := by
  have main : ∀ (l acc : List α), acc.Pairwise (fun a b => k a ≤ k b) →
      (l.foldl (fun a x => sortInsert cmp x a) acc).Pairwise (fun a b => k a ≤ k b) := by
    intro l
    induction l with
    | nil => intro acc h; simpa using h
    | cons x xs ih =>
      intro acc h
      simpa using ih (sortInsert cmp x acc) (sortInsert_pairwise k cmp hgt hngt x h)
  simpa [jsSort] using main l [] (by simp)

/-! ## Infrastructure: comparator characterizations -/

theorem cmpStr_eq_iff (a b : String) : cmpStr a b = Ordering.eq ↔ a = b := by
  unfold cmpStr
  split_ifs with h1 h2
  · simp only [reduceCtorEq, false_iff]; exact ne_of_lt h1
  · simp only [reduceCtorEq, false_iff]; exact (ne_of_lt h2).symm
  · simp only [true_iff]; exact le_antisymm (le_of_not_lt h2) (le_of_not_lt h1)

theorem cmpStr_ngt_le {a b : String} (h : cmpStr a b ≠ Ordering.gt) : a ≤ b := by
  unfold cmpStr at h
  split_ifs at h with h1 h2
  · exact le_of_lt h1
  · exact absurd rfl h
  · exact le_of_eq (le_antisymm (le_of_not_lt h2) (le_of_not_lt h1))

theorem cmpStr_gt_le {a b : String} (h : cmpStr a b = Ordering.gt) : b ≤ a := by
  unfold cmpStr at h
  split_ifs at h with h1 h2
  exact le_of_lt h2

theorem compareWorkspaceFolderByUri_eq_iff (a b : Folder) :
    compareWorkspaceFolderByUri a b = Ordering.eq ↔ a.uri = b.uri := by
  unfold compareWorkspaceFolderByUri isFolderEqual
  by_cases h : a.uri = b.uri
  · simp [h]
  · simp only [h, beq_iff_eq, if_neg h, iff_false]
    intro hc
    exact h ((cmpStr_eq_iff a.uri b.uri).mp hc)

theorem compareWorkspaceFolderByUri_gt_le {a b : Folder}
    (h : compareWorkspaceFolderByUri a b = Ordering.gt) : b.uri ≤ a.uri := by
  unfold compareWorkspaceFolderByUri isFolderEqual at h
  by_cases he : a.uri = b.uri
  · simp [he] at h
  · rw [if_neg (by simpa using he)] at h
    exact cmpStr_gt_le h

theorem compareWorkspaceFolderByUri_ngt_le {a b : Folder}
    (h : compareWorkspaceFolderByUri a b ≠ Ordering.gt) : a.uri ≤ b.uri := by
  unfold compareWorkspaceFolderByUri isFolderEqual at h
  by_cases he : a.uri = b.uri
  · exact le_of_eq he
  · rw [if_neg (by simpa using he)] at h
    exact cmpStr_ngt_le h

theorem compareUNI_eq_iff (a b : Folder) :
    compareWorkspaceFolderByUriAndNameAndIndex a b = Ordering.eq ↔
      (a.index = b.index ∧ a.uri = b.uri ∧ a.name = b.name) := by
  unfold compareWorkspaceFolderByUriAndNameAndIndex isFolderEqual
  by_cases hi : a.index = b.index
  · simp only [hi, ne_eq, not_true_eq_false, if_false, if_neg (by simp : ¬ (True = False))]
    by_cases hu : a.uri = b.uri
    · simp [hu, cmpStr_eq_iff]
    · simp only [hu, beq_iff_eq, if_neg hu, false_and, and_false, iff_false, true_and]
      intro hc
      exact hu ((cmpStr_eq_iff a.uri b.uri).mp hc)
  · rw [if_pos hi]
    constructor
    · intro hc
      split_ifs at hc
    · intro hc
      exact absurd hc.1 hi

theorem compareByIndexOnly_gt_le {a b : Folder}
    (h : compareByIndexOnly a b = Ordering.gt) : b.index ≤ a.index := by
  unfold compareByIndexOnly at h
  split_ifs at h with h1
  exact le_of_not_lt h1

theorem compareByIndexOnly_ngt_le {a b : Folder}
    (h : compareByIndexOnly a b ≠ Ordering.gt) : a.index ≤ b.index := by
  unfold compareByIndexOnly at h
  split_ifs at h with h1
  · exact le_of_lt h1
  · exact absurd rfl h

/-! ## Infrastructure: the merge-walk delta is empty iff the sorted key
sequences agree -/

theorem arrayDeltaLoop_nil_of_map_eq {K : Type} (k : α → K) (cmp : α → α → Ordering)
    (hkeq : ∀ a b, k a = k b → cmp a b = Ordering.eq) :
    ∀ (fuel : Nat) (X Y : List α), X.length ≤ fuel → X.map k = Y.map k →
      arrayDeltaLoop cmp fuel X Y = ([], [])
  | fuel, [], [], _, _ => by cases fuel <;> rfl
  | _, [], _ :: _, _, h => by simp at h
  | _, _ :: _, [], _, h => by simp at h
  | 0, x :: xs, y :: ys, hf, _ => by simp at hf
  | fuel + 1, x :: xs, y :: ys, hf, h => by
    simp only [List.map_cons, List.cons.injEq] at h
    have hrec := arrayDeltaLoop_nil_of_map_eq k cmp hkeq fuel xs ys
      (Nat.le_of_succ_le_succ (by simpa using hf)) h.2
    simp [arrayDeltaLoop, hkeq x y h.1, hrec]

theorem arrayDelta_nil_of_map_eq {K : Type} (k : α → K) (cmp : α → α → Ordering)
    (hkeq : ∀ a b, k a = k b → cmp a b = Ordering.eq)
    (X Y : List α) (h : X.map k = Y.map k) : arrayDelta cmp X Y = ([], []) :=
  arrayDeltaLoop_nil_of_map_eq k cmp hkeq _ X Y (by omega) h

theorem map_eq_of_arrayDeltaLoop_nil {K : Type} (k : α → K) (cmp : α → α → Ordering)
    (heqk : ∀ a b, cmp a b = Ordering.eq → k a = k b) :
    ∀ (fuel : Nat) (X Y : List α), arrayDeltaLoop cmp fuel X Y = ([], []) →
      X.map k = Y.map k
  | 0, X, Y, h => by
    rw [arrayDeltaLoop] at h
    rcases Prod.mk.injEq .. ▸ h with h'
    simp only [Prod.mk.injEq] at h'
    rw [h'.1, h'.2]
  | _ + 1, [], Y, h => by
    rw [arrayDeltaLoop] at h
    simp only [Prod.mk.injEq] at h
    rw [h.2]
  | _ + 1, _ :: _, [], h => by
    rw [arrayDeltaLoop] at h
    simp at h
  | fuel + 1, x :: xs, y :: ys, h => by
    rcases hc : cmp x y with hlt | heq | hgt
    · rw [arrayDeltaLoop] at h
      rw [hc] at h
      simp at h
    · rw [arrayDeltaLoop] at h
      rw [hc] at h
      have := map_eq_of_arrayDeltaLoop_nil k cmp heqk fuel xs ys h
      simp [this, heqk x y hc]
    · rw [arrayDeltaLoop] at h
      rw [hc] at h
      simp at h

theorem map_eq_of_arrayDelta_nil {K : Type} (k : α → K) (cmp : α → α → Ordering)
    (heqk : ∀ a b, cmp a b = Ordering.eq → k a = k b)
    (X Y : List α) (h : arrayDelta cmp X Y = ([], [])) : X.map k = Y.map k :=
  map_eq_of_arrayDeltaLoop_nil k cmp heqk _ X Y h

/-! ## Infrastructure: two key-sorted lists with permuted keys have equal key
sequences, hence an empty delta -/

theorem eq_of_perm_of_pairwise_le {K : Type} [LinearOrder K] {l₁ l₂ : List K}
    (p : l₁.Perm l₂) (s₁ : l₁.Pairwise (· ≤ ·)) (s₂ : l₂.Pairwise (· ≤ ·)) :
    l₁ = l₂ := by
  haveI : IsAntisymm K (· ≤ ·) := ⟨fun _ _ => le_antisymm⟩
  exact List.eq_of_perm_of_sorted p s₁ s₂

theorem jsSort_map_key_eq {K : Type} [LinearOrder K] (k : α → K)
    (cmp : α → α → Ordering)
    (hgt : ∀ a b, cmp a b = Ordering.gt → k b ≤ k a)
    (hngt : ∀ a b, cmp a b ≠ Ordering.gt → k a ≤ k b)
    (A B : List α) (h : (A.map k).Perm (B.map k)) :
    (jsSort cmp A).map k = (jsSort cmp B).map k := by
  refine eq_of_perm_of_pairwise_le ?_ ?_ ?_
  · exact (((jsSort_perm cmp A).map k).trans h).trans ((jsSort_perm cmp B).map k).symm
  · exact List.pairwise_map.mpr (jsSort_pairwise k cmp hgt hngt A)
  · exact List.pairwise_map.mpr (jsSort_pairwise k cmp hgt hngt B)

/-- Location-only delta: if the uri multisets of the two lists agree, the
delta is empty — name or index changes are invisible to it. -/
theorem deltaFolders_byUri_nil (oldL newL : List Folder)
    (h : (oldL.map Folder.uri).Perm (newL.map Folder.uri)) :
    deltaFolders compareWorkspaceFolderByUri oldL newL = ([], []) := by
  unfold deltaFolders
  refine arrayDelta_nil_of_map_eq Folder.uri _ ?_ _ _ ?_
  · intro a b hab
    exact (compareWorkspaceFolderByUri_eq_iff a b).mpr hab
  · exact jsSort_map_key_eq Folder.uri _ (fun a b => compareWorkspaceFolderByUri_gt_le)
      (fun a b => compareWorkspaceFolderByUri_ngt_le) oldL newL h

/-- Converse direction for the uri/name/index comparator: an empty delta
forces the two lists to agree as multisets of (index, uri, name) triples. -/
theorem perm_key_of_deltaFolders_uni_nil (oldL newL : List Folder)
    (h : deltaFolders compareWorkspaceFolderByUriAndNameAndIndex oldL newL = ([], [])) :
    (oldL.map (fun f => (f.index, f.uri, f.name))).Perm
      (newL.map (fun f => (f.index, f.uri, f.name))) := by
  unfold deltaFolders at h
  have hmap := map_eq_of_arrayDelta_nil (fun f : Folder => (f.index, f.uri, f.name)) _
    (fun a b hab => by
      rcases (compareUNI_eq_iff a b).mp hab with ⟨h1, h2, h3⟩
      simp [h1, h2, h3]) _ _ h
  have p1 := ((jsSort_perm compareWorkspaceFolderByUriAndNameAndIndex oldL).map
    (fun f => (f.index, f.uri, f.name))).symm
  exact (hmap ▸ p1).trans
    ((jsSort_perm compareWorkspaceFolderByUriAndNameAndIndex newL).map _)

/-! ## Infrastructure: the merge preserves the incoming uri sequence -/

theorem findFolder_uri {ws : ExtHostWorkspaceImpl} {u : String} {f : Folder}
    (h : ws.findFolder u = some f) : f.uri = u := by
  have := List.find?_some h
  simpa [isFolderEqual] using this

theorem findFolder_mem {ws : ExtHostWorkspaceImpl} {u : String} {f : Folder}
    (h : ws.findFolder u = some f) : f ∈ ws.workspaceFolders :=
  List.mem_of_find?_eq_some h

theorem mergeFolders_map_uri (ws : ExtHostWorkspaceImpl) :
    ∀ (fds : List FolderData) (nid pos : Nat),
      (mergeFolders ws nid pos fds).1.map Folder.uri = fds.map FolderData.uri
  | [], _, _ => rfl
  | fd :: rest, nid, pos => by
    rw [mergeFolders]
    rcases hf : ws.findFolder fd.uri with _ | ex
    · simp [mergeFolders_map_uri ws rest (nid + 1) (pos + 1)]
    · simp [findFolder_uri hf, mergeFolders_map_uri ws rest nid (pos + 1)]

theorem freshFolders_map_uri :
    ∀ (fds : List FolderData) (nid : Nat),
      (freshFolders nid fds).1.map Folder.uri = fds.map FolderData.uri
  | [], _ => rfl
  | fd :: rest, nid => by
    rw [freshFolders]
    simp [freshFolders_map_uri rest (nid + 1)]

theorem builtFolders_map_uri (d : WorkspaceData) (c u : Option ExtHostWorkspaceImpl)
    (nid : Nat) :
    (builtFolders d c u nid).1.map Folder.uri = d.folders.map FolderData.uri := by
  unfold builtFolders
  rcases c with _ | oldWs
  · exact freshFolders_map_uri d.folders nid
  · exact mergeFolders_map_uri (u.getD oldWs) d.folders nid 0

/-- Unfolding `toExtHostWorkspace` on non-null data. -/
theorem toExtHostWorkspace_some (d : WorkspaceData)
    (c u : Option ExtHostWorkspaceImpl) (nid : Nat) :
    toExtHostWorkspace (some d) c u nid =
      ⟨some ⟨d.id, d.name, jsSort compareByIndexOnly (builtFolders d c u nid).1⟩,
       (deltaFolders compareWorkspaceFolderByUri (oldFoldersOf c)
          (jsSort compareByIndexOnly (builtFolders d c u nid).1)).2,
       (deltaFolders compareWorkspaceFolderByUri (oldFoldersOf c)
          (jsSort compareByIndexOnly (builtFolders d c u nid).1)).1,
       (builtFolders d c u nid).2⟩ := rfl

/-- Key fact behind metadata-invisibility and idempotence: whenever the uri
multiset of the previous confirmed folder list agrees with the uri sequence of
the incoming descriptors, the delta computed by `toExtHostWorkspace` is
empty. -/
theorem toExtHostWorkspace_delta_nil (d : WorkspaceData)
    (oldWs : ExtHostWorkspaceImpl) (u : Option ExtHostWorkspaceImpl) (nid : Nat)
    (h : (oldWs.workspaceFolders.map Folder.uri).Perm (d.folders.map FolderData.uri)) :
    (toExtHostWorkspace (some d) (some oldWs) u nid).added = [] ∧
      (toExtHostWorkspace (some d) (some oldWs) u nid).removed = [] := by
  rw [toExtHostWorkspace_some]
  have hperm : (oldWs.workspaceFolders.map Folder.uri).Perm
      ((jsSort compareByIndexOnly (builtFolders d (some oldWs) u nid).1).map Folder.uri) := by
    refine h.trans ?_
    rw [← builtFolders_map_uri d (some oldWs) u nid]
    exact ((jsSort_perm compareByIndexOnly (builtFolders d (some oldWs) u nid).1).map _).symm
  have hnil := deltaFolders_byUri_nil _ _ hperm
  simp [oldFoldersOf, hnil]

/-! ## Claims -/

/-- C1 (counterexample): the claim says the delta of `$acceptWorkspaceData`
is computed with a comparator considering location, name and ordinal, so a
name-only change of the folder at "/a" should surface as one removed plus one
added element.  In fact the delta is computed with
`compareWorkspaceFolderByUri` (location only): accepting data that only
renames the folder at "/a" fires an event with empty `added` and `removed`
lists. -/
theorem acceptWorkspaceData_metadata_only_cex :
    (acceptWorkspaceData stA (some dataRenameA)).events =
      [{ added := [], removed := [] }] := by
  decide

/-- Shared helper: whenever the incoming locations are a permutation of the
previous confirmed snapshot's locations, the event fired by
`$acceptWorkspaceData` carries empty added/removed lists. -/
theorem accept_events_nil_of_perm (st : ExtHostWorkspaceState)
    (d : WorkspaceData) (oldWs : ExtHostWorkspaceImpl)
    (hc : st.confirmed = some oldWs)
    (hperm : (oldWs.workspaceFolders.map Folder.uri).Perm (d.folders.map FolderData.uri)) :
    (acceptWorkspaceData st (some d)).events =
      st.events ++ [{ added := [], removed := [] }] := by
  have h := toExtHostWorkspace_delta_nil d oldWs st.unconfirmed st.nextId hperm
  simp [acceptWorkspaceData, hc, h.1, h.2]

/-- C1 (amended): for every `$acceptWorkspaceData` call the added/removed
delta carried by the emitted change notification is computed with the
location-only comparator; consequently, whenever the incoming locations are a
permutation of the previous confirmed snapshot's locations — even if names or
ordinals changed — the event carries empty `added` and `removed` lists, so a
folder whose name or ordinal changed while its location stayed the same
appears in neither list. -/
theorem acceptWorkspaceData_location_only_delta (st : ExtHostWorkspaceState)
    (d : WorkspaceData) (oldWs : ExtHostWorkspaceImpl)
    (hc : st.confirmed = some oldWs)
    (hperm : (oldWs.workspaceFolders.map Folder.uri).Perm (d.folders.map FolderData.uri)) :
    (acceptWorkspaceData st (some d)).events =
      st.events ++ [{ added := [], removed := [] }] :=
  accept_events_nil_of_perm st d oldWs hc hperm

/-- C1 (witness): the amended theorem applied to the concrete rename input. -/
theorem acceptWorkspaceData_location_only_delta_witness :
    (acceptWorkspaceData stA (some dataRenameA)).events =
      stA.events ++ [{ added := [], removed := [] }] :=
  acceptWorkspaceData_location_only_delta stA dataRenameA wsA rfl (by decide)

/-- C4: every `$acceptWorkspaceData` call overwrites the confirmed snapshot
with the merge of the previous confirmed and unconfirmed snapshots with the
incoming data, unconditionally clears the unconfirmed snapshot (discarding any
pending local edit), and fires the folder-change event exactly once. -/
theorem acceptWorkspaceData_overwrites (st : ExtHostWorkspaceState)
    (data : Option WorkspaceData) :
    (acceptWorkspaceData st data).confirmed =
      (toExtHostWorkspace data st.confirmed st.unconfirmed st.nextId).workspace ∧
    (acceptWorkspaceData st data).unconfirmed = none ∧
    (acceptWorkspaceData st data).events =
      st.events ++
        [{ added := (toExtHostWorkspace data st.confirmed st.unconfirmed st.nextId).added,
           removed := (toExtHostWorkspace data st.confirmed st.unconfirmed st.nextId).removed }] ∧
    (acceptWorkspaceData st data).events.length = st.events.length + 1 := by
  refine ⟨rfl, rfl, rfl, ?_⟩
  simp [acceptWorkspaceData]

/-- C8: accepting the same workspace data twice in a row makes the second
call compute an empty delta: its change event carries empty added and removed
lists. -/
theorem acceptWorkspaceData_idempotent (st : ExtHostWorkspaceState)
    (d : Option WorkspaceData) :
    (acceptWorkspaceData (acceptWorkspaceData st d) d).events =
      (acceptWorkspaceData st d).events ++ [{ added := [], removed := [] }] := by
  rcases d with _ | d
  · rfl
  · have hperm : (((⟨d.id, d.name,
        jsSort compareByIndexOnly (builtFolders d st.confirmed st.unconfirmed st.nextId).1⟩ :
        ExtHostWorkspaceImpl)).workspaceFolders.map Folder.uri).Perm
        (d.folders.map FolderData.uri) := by
      show ((jsSort compareByIndexOnly
        (builtFolders d st.confirmed st.unconfirmed st.nextId).1).map Folder.uri).Perm _
      rw [← builtFolders_map_uri d st.confirmed st.unconfirmed st.nextId]
      exact (jsSort_perm compareByIndexOnly _).map _
    exact accept_events_nil_of_perm (acceptWorkspaceData st (some d)) d
      ⟨d.id, d.name, jsSort compareByIndexOnly
        (builtFolders d st.confirmed st.unconfirmed st.nextId).1⟩ rfl hperm

/-! ## Infrastructure: per-descriptor characterization of the merged list -/

theorem mergeFolders_entry (ws : ExtHostWorkspaceImpl) :
    ∀ (fds : List FolderData) (nid pos i : Nat) (hi : i < fds.length),
      ∃ f ∈ (mergeFolders ws nid pos fds).1,
        f.uri = (fds.get ⟨i, hi⟩).uri ∧ f.name = (fds.get ⟨i, hi⟩).name ∧
        (match ws.findFolder (fds.get ⟨i, hi⟩).uri with
         | some ex => f.fid = ex.fid ∧ f.index = (fds.get ⟨i, hi⟩).index
         | none => f.index = ((pos + i : Nat) : Int))
  | fd :: rest, nid, pos, 0, hi => by
    rw [mergeFolders]
    rcases hf : ws.findFolder fd.uri with _ | ex
    · exact ⟨_, List.mem_cons_self _ _, by simp [hf]⟩
    · refine ⟨_, List.mem_cons_self _ _, ?_⟩
      have hu := findFolder_uri hf
      simp [hf, hu]
  | fd :: rest, nid, pos, i + 1, hi => by
    have hi' : i < rest.length := by simpa using Nat.lt_of_succ_lt_succ hi
    rw [mergeFolders]
    have harith : ((pos + 1) + i : Nat) = (pos + (i + 1) : Nat) := by omega
    rcases hf : ws.findFolder fd.uri with _ | ex
    · rcases mergeFolders_entry ws rest (nid + 1) (pos + 1) i hi' with ⟨f, hmem, hp⟩
      refine ⟨f, List.mem_cons_of_mem _ hmem, ?_⟩
      simpa [harith] using hp
    · rcases mergeFolders_entry ws rest nid (pos + 1) i hi' with ⟨f, hmem, hp⟩
      refine ⟨f, List.mem_cons_of_mem _ hmem, ?_⟩
      simpa [harith] using hp

theorem freshFolders_entry :
    ∀ (fds : List FolderData) (nid i : Nat) (hi : i < fds.length),
      ∃ f ∈ (freshFolders nid fds).1,
        f.uri = (fds.get ⟨i, hi⟩).uri ∧ f.name = (fds.get ⟨i, hi⟩).name ∧
        f.index = (fds.get ⟨i, hi⟩).index
  | fd :: rest, nid, 0, hi => by
    rw [freshFolders]
    exact ⟨_, List.mem_cons_self _ _, by simp⟩
  | fd :: rest, nid, i + 1, hi => by
    have hi' : i < rest.length := by simpa using Nat.lt_of_succ_lt_succ hi
    rw [freshFolders]
    rcases freshFolders_entry rest (nid + 1) i hi' with ⟨f, hmem, hp⟩
    exact ⟨f, List.mem_cons_of_mem _ hmem, by simpa using hp⟩

/-- C2 (counterexample): the claim says every folder's ordinal is the one
carried by the incoming data and that equal-ordinal ties keep the folders'
original relative order.  Both parts fail: (1) merging `dataFreshB` (one
unknown location with ordinal 5) against an existing workspace constructs the
fresh folder with its arrival position 0, not the incoming ordinal 5; (2) in
the no-previous-workspace branch, the tie between the two ordinal-0 folders of
`dataTie` is resolved in reverse arrival order, because the sort comparator
never returns 0. -/
theorem toExtHostWorkspace_ordinal_cex :
    ((toExtHostWorkspace (some dataFreshB) (some wsA) none 1).workspace.map
        (fun w => w.workspaceFolders.map Folder.index)) = some [0] ∧
    (0 : Int) ≠ 5 ∧
    ((toExtHostWorkspace (some dataTie) none none 0).workspace.map
        (fun w => w.workspaceFolders.map Folder.uri)) = some ["/b", "/a"] ∧
    ["/b", "/a"] ≠ ["/a", "/b"] := by
  refine ⟨by decide, by decide, by decide, by decide⟩

/-- C2 (amended): after the merge the folder list is re-sorted by ordinal
ascending (non-strictly; the sort comparator never reports equality, so the
relative order of equal-ordinal folders is not the original one), and the
ordinals entering the sort are: the incoming ordinal for a descriptor matched
to an existing folder, the descriptor's arrival position for a fresh folder
constructed while a previous confirmed workspace exists, and the incoming
ordinal when no previous confirmed workspace exists. -/
theorem toExtHostWorkspace_sorted_ordinals (d : WorkspaceData)
    (c u : Option ExtHostWorkspaceImpl) (nid : Nat) :
    ∃ w, (toExtHostWorkspace (some d) c u nid).workspace = some w ∧
      w.workspaceFolders.Pairwise (fun a b => a.index ≤ b.index) ∧
      ∀ i, (hi : i < d.folders.length) →
        ∃ f ∈ w.workspaceFolders,
          f.uri = (d.folders.get ⟨i, hi⟩).uri ∧
          f.name = (d.folders.get ⟨i, hi⟩).name ∧
          f.index =
            (match c with
             | some oldWs =>
               match (u.getD oldWs).findFolder (d.folders.get ⟨i, hi⟩).uri with
               | some _ => (d.folders.get ⟨i, hi⟩).index
               | none => (i : Int)
             | none => (d.folders.get ⟨i, hi⟩).index) := by
  refine ⟨⟨d.id, d.name, jsSort compareByIndexOnly (builtFolders d c u nid).1⟩,
    by rw [toExtHostWorkspace_some], ?_, ?_⟩
  · exact jsSort_pairwise Folder.index compareByIndexOnly
      (fun a b => compareByIndexOnly_gt_le) (fun a b => compareByIndexOnly_ngt_le) _
  · intro i hi
    rcases c with _ | oldWs
    · rcases freshFolders_entry d.folders nid i hi with ⟨f, hmem, h1, h2, h3⟩
      refine ⟨f, ?_, h1, h2, h3⟩
      exact (jsSort_perm compareByIndexOnly _).mem_iff.mpr hmem
    · rcases mergeFolders_entry (u.getD oldWs) d.folders nid 0 i hi with ⟨f, hmem, h1, h2, h3⟩
      refine ⟨f, ?_, h1, h2, ?_⟩
      · exact (jsSort_perm compareByIndexOnly _).mem_iff.mpr hmem
      · rcases hf : (u.getD oldWs).findFolder (d.folders.get ⟨i, hi⟩).uri with _ | ex
        · simp only [hf] at h3 ⊢
          simpa using h3
        · simp only [hf] at h3 ⊢
          exact h3.2

/-- C2 (witness): the amended theorem at the concrete inputs of the
counterexample: the fresh folder of `dataFreshB` enters with arrival position
0, and the merged list is sorted by ordinal. -/
theorem toExtHostWorkspace_sorted_ordinals_witness :
    ∃ w, (toExtHostWorkspace (some dataFreshB) (some wsA) none 1).workspace = some w ∧
      w.workspaceFolders.Pairwise (fun a b => a.index ≤ b.index) ∧
      ∃ f ∈ w.workspaceFolders, f.uri = "/b" ∧ f.name = "b" ∧ f.index = (0 : Int) := by
  rcases toExtHostWorkspace_sorted_ordinals dataFreshB (some wsA) none 1 with ⟨w, h1, h2, h3⟩
  rcases h3 0 (by decide) with ⟨f, hmem, hu, hn, hidx⟩
  refine ⟨w, h1, h2, f, hmem, hu, hn, ?_⟩
  rw [hidx]
  rfl

/-- C5 (counterexample): the claim covers the case where a previous
unconfirmed snapshot exists while the previous confirmed one is absent: the
incoming location "/a" equals the location of the unconfirmed snapshot's
folder with identity 7, so per the claim the merged snapshot should reuse
that object.  The merge branch only runs when a previous *confirmed*
workspace exists, so a fresh folder (identity 100, the next counter value) is
constructed instead. -/
theorem toExtHostWorkspace_identity_cex :
    ((toExtHostWorkspace (some dataRenameA) none (some wsU7) 100).workspace.map
        (fun w => w.workspaceFolders.map Folder.fid)) = some [100] ∧
    (100 : Nat) ≠ 7 :=
  ⟨by decide, by decide⟩

/-- C5 (amended): *when a previous confirmed snapshot exists*, every incoming
descriptor whose location equals the location of a folder found in the
previous unconfirmed snapshot (or, absent one, the previous confirmed
snapshot) yields, in the merged snapshot, the same folder object (same
identity) with name and ordinal updated to the incoming values.  Distinct
incoming locations are assumed (the workspace invariant); with duplicates the
in-place JavaScript mutation would make aliased list entries all show the
last descriptor's values. -/
theorem toExtHostWorkspace_identity (d : WorkspaceData)
    (c u : Option ExtHostWorkspaceImpl) (nid : Nat) (oldWs : ExtHostWorkspaceImpl)
    (hc : c = some oldWs) (_hnodup : (d.folders.map FolderData.uri).Nodup)
    (i : Nat) (hi : i < d.folders.length) (ex : Folder)
    (hfind : (u.getD oldWs).findFolder (d.folders.get ⟨i, hi⟩).uri = some ex) :
    ∃ w, (toExtHostWorkspace (some d) c u nid).workspace = some w ∧
      ∃ f ∈ w.workspaceFolders, f.fid = ex.fid ∧
        f.name = (d.folders.get ⟨i, hi⟩).name ∧
        f.index = (d.folders.get ⟨i, hi⟩).index := by
  subst hc
  refine ⟨⟨d.id, d.name, jsSort compareByIndexOnly
    (builtFolders d (some oldWs) u nid).1⟩, by rw [toExtHostWorkspace_some], ?_⟩
  rcases mergeFolders_entry (u.getD oldWs) d.folders nid 0 i hi with ⟨f, hmem, h1, h2, h3⟩
  simp only [hfind] at h3
  exact ⟨f, (jsSort_perm compareByIndexOnly _).mem_iff.mpr hmem, h3.1, h2, h3.2⟩

/-- C5 (witness): the amended theorem at a concrete input: the rename of "/a"
reuses the existing folder object (identity 0 of `fA`) with the new name. -/
theorem toExtHostWorkspace_identity_witness :
    ∃ w, (toExtHostWorkspace (some dataRenameA) (some wsA) none 1).workspace = some w ∧
      ∃ f ∈ w.workspaceFolders, f.fid = fA.fid ∧ f.name = "new" ∧ f.index = (0 : Int) := by
  rcases toExtHostWorkspace_identity dataRenameA (some wsA) none 1 wsA rfl (by decide)
    0 (by decide) fA (by decide) with ⟨w, h1, f, hmem, hfid, hn, hidx⟩
  exact ⟨w, h1, f, hmem, hfid, hn, hidx⟩

/-! ## Infrastructure: the longest-ancestor lookup -/

theorem findSubstr_none_spec :
    ∀ (fs : List Folder) (q : String), findSubstr fs q = none →
      ∀ g ∈ fs, isBaseOf g.uri q = false
  | [], _, _ => by simp
  | f0 :: rest, q, h => by
    rw [findSubstr] at h
    rcases hr : findSubstr rest q with _ | g
    · simp only [hr] at h
      intro g hg
      rcases List.mem_cons.mp hg with h1 | h1
      · by_cases hb : isBaseOf f0.uri q
        · rw [if_pos hb] at h; exact absurd h (by simp)
        · rw [h1]; exact Bool.of_not_eq_true hb
      · exact findSubstr_none_spec rest q hr g h1
    · simp only [hr] at h
      split_ifs at h

theorem findSubstr_none_of_no_base :
    ∀ (fs : List Folder) (q : String),
      (∀ g ∈ fs, isBaseOf g.uri q = false) → findSubstr fs q = none
  | [], _, _ => rfl
  | f0 :: rest, q, h => by
    have hrest := findSubstr_none_of_no_base rest q (fun g hg => h g (List.mem_cons_of_mem _ hg))
    rw [findSubstr, hrest]
    rw [if_neg]
    simp [h f0 (List.mem_cons_self _ _)]

theorem findSubstr_some_spec :
    ∀ (fs : List Folder) (q : String) (f : Folder), findSubstr fs q = some f →
      f ∈ fs ∧ isBaseOf f.uri q = true ∧
      ∀ g ∈ fs, isBaseOf g.uri q = true → g.uri.length ≤ f.uri.length
  | [], _, _, h => by simp [findSubstr] at h
  | f0 :: rest, q, f, h => by
    rw [findSubstr] at h
    rcases hr : findSubstr rest q with _ | g
    · simp only [hr] at h
      by_cases hb : isBaseOf f0.uri q
      · rw [if_pos hb] at h
        have hf : f0 = f := by simpa using h
        rw [← hf]
        refine ⟨List.mem_cons_self _ _, hb, ?_⟩
        intro g' hg' hbase
        rcases List.mem_cons.mp hg' with h1 | h1
        · rw [h1]
        · exact absurd hbase (by simp [findSubstr_none_spec rest q hr g' h1])
      · rw [if_neg hb] at h
        exact absurd h (by simp)
    · simp only [hr] at h
      rcases findSubstr_some_spec rest q g hr with ⟨hgmem, hgbase, hgmax⟩
      by_cases hc : isBaseOf f0.uri q && decide (g.uri.length < f0.uri.length)
      · rw [if_pos hc] at h
        have hf : f0 = f := by simpa using h
        rcases Bool.and_eq_true_iff.mp hc with ⟨hb0, hlen⟩
        rw [← hf]
        refine ⟨List.mem_cons_self _ _, hb0, ?_⟩
        intro g' hg' hbase
        rcases List.mem_cons.mp hg' with h1 | h1
        · rw [h1]
        · exact le_trans (hgmax g' h1 hbase) (le_of_lt (of_decide_eq_true hlen))
      · rw [if_neg hc] at h
        have hf : g = f := by simpa using h
        rw [← hf]
        refine ⟨List.mem_cons_of_mem _ hgmem, hgbase, ?_⟩
        intro g' hg' hbase
        rcases List.mem_cons.mp hg' with h1 | h1
        · rw [h1] at hbase ⊢
          rcases Bool.and_eq_false_iff.mp (Bool.of_not_eq_true hc) with hb | hlen
          · exact absurd hbase (by simp [hb])
          · exact le_of_not_lt (by simpa using of_decide_eq_false hlen)
        · exact hgmax g' h1 hbase

/-- C6: `getWorkspaceFolder` — with `resolveParent` set and the queried
location stored in the structure, the lookup runs on the location's parent
path; otherwise the result is the folder whose location is the longest
path-ancestor of the query, and none when no folder's location is an ancestor
of it; over folders [/ws/a, /ws/b] the query /ws/a/src/file.ts yields the
/ws/a folder and /ws/c/file.ts yields none. -/
theorem getWorkspaceFolder_spec :
    (∀ (ws : ExtHostWorkspaceImpl) (uri : String),
       (lookupUriExact ws.workspaceFolders uri).isSome = true →
       ws.getWorkspaceFolder uri true = findSubstr ws.workspaceFolders (dirnameStr uri)) ∧
    (∀ (ws : ExtHostWorkspaceImpl) (uri : String) (rp : Bool),
       rp = false ∨ lookupUriExact ws.workspaceFolders uri = none →
       ws.getWorkspaceFolder uri rp = findSubstr ws.workspaceFolders uri) ∧
    (∀ (ws : ExtHostWorkspaceImpl) (uri : String) (rp : Bool) (f : Folder),
       rp = false ∨ lookupUriExact ws.workspaceFolders uri = none →
       ws.getWorkspaceFolder uri rp = some f →
       f ∈ ws.workspaceFolders ∧ isBaseOf f.uri uri = true ∧
       ∀ g ∈ ws.workspaceFolders, isBaseOf g.uri uri = true →
         g.uri.length ≤ f.uri.length) ∧
    (∀ (ws : ExtHostWorkspaceImpl) (uri : String) (rp : Bool),
       rp = false ∨ lookupUriExact ws.workspaceFolders uri = none →
       (∀ g ∈ ws.workspaceFolders, isBaseOf g.uri uri = false) →
       ws.getWorkspaceFolder uri rp = none) ∧
    hostGetWorkspaceFolder stMulti "/ws/a/src/file.ts" false = some ⟨0, "/ws/a", "a", 0⟩ ∧
    hostGetWorkspaceFolder stMulti "/ws/c/file.ts" false = none := by
  have hplain : ∀ (ws : ExtHostWorkspaceImpl) (uri : String) (rp : Bool),
      rp = false ∨ lookupUriExact ws.workspaceFolders uri = none →
      ws.getWorkspaceFolder uri rp = findSubstr ws.workspaceFolders uri := by
    intro ws uri rp h
    rcases h with h | h
    · simp [ExtHostWorkspaceImpl.getWorkspaceFolder, h]
    · simp [ExtHostWorkspaceImpl.getWorkspaceFolder, h]
  refine ⟨?_, hplain, ?_, ?_, by decide, by decide⟩
  · intro ws uri h
    simp [ExtHostWorkspaceImpl.getWorkspaceFolder, h]
  · intro ws uri rp f h hsome
    rw [hplain ws uri rp h] at hsome
    exact findSubstr_some_spec ws.workspaceFolders uri f hsome
  · intro ws uri rp h hnone
    rw [hplain ws uri rp h]
    exact findSubstr_none_of_no_base ws.workspaceFolders uri hnone

/-- C6 (witness): the longest-ancestor characterization applied at the
concrete multi-root example. -/
theorem getWorkspaceFolder_spec_witness :
    (⟨0, "/ws/a", "a", 0⟩ : Folder) ∈ wsMulti.workspaceFolders ∧
    isBaseOf "/ws/a" "/ws/a/src/file.ts" = true := by
  have h := getWorkspaceFolder_spec.2.2.1 wsMulti "/ws/a/src/file.ts" false
    (⟨0, "/ws/a", "a", 0⟩ : Folder) (Or.inl rfl) (by decide)
  exact ⟨h.1, h.2.1⟩

/-- C7: `getRelativePath` — when no containing folder is found (parent
resolution enabled) the input is returned unchanged; otherwise the result is
the input's path relative to the containing folder's location, prefixed with
the folder's display name and a separator exactly when `includeWorkspace` is
true; an unset `includeWorkspace` defaults to true exactly when more than one
folder exists; with the single folder /ws/a the example path yields
"src/file.ts", with folders /ws/a and /ws/b it yields "a/src/file.ts". -/
theorem getRelativePath_spec :
    (∀ (st : ExtHostWorkspaceState) (p : String) (inc : Option Bool),
       hostGetWorkspaceFolder st p true = none → getRelativePath st p inc = p) ∧
    (∀ (st : ExtHostWorkspaceState) (p : String) (f : Folder) (b : Bool),
       p ≠ "" → hostGetWorkspaceFolder st p true = some f →
       getRelativePath st p (some b) =
         (if b then f.name ++ "/" ++ relativeTo f.uri p else relativeTo f.uri p)) ∧
    (∀ (st : ExtHostWorkspaceState) (p : String),
       getRelativePath st p none =
         getRelativePath st p
           (some (decide ((actualWorkspace st).elim 0
             (fun w => w.workspaceFolders.length) > 1)))) ∧
    getRelativePath stSingle "/ws/a/src/file.ts" none = "src/file.ts" ∧
    getRelativePath stMulti "/ws/a/src/file.ts" none = "a/src/file.ts" := by
  refine ⟨?_, ?_, ?_, by decide, by decide⟩
  · intro st p inc h
    by_cases hp : p = ""
    · simp [getRelativePath, hp]
    · simp [getRelativePath, hp, h]
  · intro st p f b hp hf
    simp [getRelativePath, hp, hf, normalizeStr]
  · intro st p
    by_cases hp : p = ""
    · simp [getRelativePath, hp]
    · rcases h : hostGetWorkspaceFolder st p true with _ | f
      · simp [getRelativePath, hp, h]
      · simp [getRelativePath, hp, h]

/-- C7 (witness): the prefixing rule applied at the concrete multi-root
state. -/
theorem getRelativePath_spec_witness :
    getRelativePath stMulti "/ws/a/src/file.ts" (some true) =
      "a" ++ "/" ++ relativeTo "/ws/a" "/ws/a/src/file.ts" := by
  have h := getRelativePath_spec.2.1 stMulti "/ws/a/src/file.ts"
    (⟨0, "/ws/a", "a", 0⟩ : Folder) true (by decide) (by decide)
  simpa using h

/-! ## Infrastructure: script error propagation -/

theorem processLocalizations_error (env : ScriptEnv) (folder : String) :
    ∀ (locs : List LocalizationEntry) (e : LocalizationEntry), e ∈ locs →
      (truthyS e.languageId = false ∨ truthyS e.languageName = false ∨
        truthyS e.translations = false) →
      processLocalizations env folder locs =
        ScriptOutcome.error "Each localization contribution must define properties."
  | e0 :: rest, e, hmem, hbad => by
    rw [processLocalizations]
    by_cases h0 : (!truthyS e0.languageId || !truthyS e0.languageName ||
        !truthyS e0.translations) = true
    · rw [if_pos h0]
    · rw [if_neg h0]
      simp only [Bool.or_eq_true, Bool.not_eq_true', not_or] at h0
      rcases List.mem_cons.mp hmem with h1 | h1
      · exfalso
        rw [h1] at hbad
        rcases hbad with hb | hb | hb
        · exact absurd hb (by simp [h0.1.1])
        · exact absurd hb (by simp [h0.1.2])
        · exact absurd hb (by simp [h0.2])
      · have hrec := processLocalizations_error env folder rest e h1 hbad
        simp [hrec]

/-- C9: the localization update script raises a hard, process-aborting error
when the argument is missing, when the resolved target path is not an
existing directory (a missing path aborts in `statSync`, an existing
non-directory aborts when reading `package.json` below it — the script's own
directory check is dead code), when the manifest lacks a `contributes`
section or a `localizations` list, and when some localization entry lacks a
truthy `languageId`, `languageName` or `translations`. -/
theorem updateLocalization_errors :
    (∀ env : ScriptEnv, updateLocalizationExtension env none =
       ScriptOutcome.error "Argument must be the location of the localization extension.") ∧
    (∀ (env : ScriptEnv) (arg : String), arg ≠ "" →
       env.nodes (if isLangIdArg arg then "../vscode-localization-" ++ arg else arg) ≠
         some FsNode.dir →
       ∃ m, updateLocalizationExtension env (some arg) = ScriptOutcome.error m) ∧
    (∀ (env : ScriptEnv) (arg : String) (pkg : PackageJSON), arg ≠ "" →
       readPackageJSON env
           (if isLangIdArg arg then "../vscode-localization-" ++ arg else arg) = some pkg →
       (pkg.contributes = none ∨
         ∃ c, pkg.contributes = some c ∧ c.localizations = none) →
       ∃ m, updateLocalizationExtension env (some arg) = ScriptOutcome.error m) ∧
    (∀ (env : ScriptEnv) (arg : String) (pkg : PackageJSON) (c : Contributes)
       (locs : List LocalizationEntry) (e : LocalizationEntry), arg ≠ "" →
       readPackageJSON env
           (if isLangIdArg arg then "../vscode-localization-" ++ arg else arg) = some pkg →
       pkg.contributes = some c → c.localizations = some locs → e ∈ locs →
       (truthyS e.languageId = false ∨ truthyS e.languageName = false ∨
         truthyS e.translations = false) →
       updateLocalizationExtension env (some arg) =
         ScriptOutcome.error "Each localization contribution must define properties.") := by
  have hnode_of_read : ∀ (env : ScriptEnv) (folder : String) (pkg : PackageJSON),
      readPackageJSON env folder = some pkg → env.nodes folder = some FsNode.dir := by
    intro env folder pkg h
    unfold readPackageJSON at h
    rcases hn : env.nodes folder with _ | node
    · rw [hn] at h; exact absurd h (by simp)
    · rcases node with _ | _
      · rfl
      · rw [hn] at h; exact absurd h (by simp)
  refine ⟨fun env => rfl, ?_, ?_, ?_⟩
  · intro env arg hne hnode
    unfold updateLocalizationExtension
    dsimp only
    rw [if_neg (by simpa using hne)]
    rcases hn : env.nodes (if isLangIdArg arg then "../vscode-localization-" ++ arg else arg)
      with _ | node
    · exact ⟨_, rfl⟩
    · have hread : readPackageJSON env
          (if isLangIdArg arg then "../vscode-localization-" ++ arg else arg) = none := by
        unfold readPackageJSON
        rw [hn]
        rcases node with _ | _
        · exact absurd hn hnode
        · rfl
      rw [hread]
      exact ⟨_, rfl⟩
  · intro env arg pkg hne hread hmissing
    unfold updateLocalizationExtension
    dsimp only
    rw [if_neg (by simpa using hne)]
    rw [hnode_of_read env _ pkg hread, hread]
    dsimp only
    rcases hmissing with hc | ⟨c, hc, hl⟩
    · rw [hc]; exact ⟨_, rfl⟩
    · simp only [hc, hl]
      exact ⟨_, rfl⟩
  · intro env arg pkg c locs e hne hread hc hl hmem hbad
    unfold updateLocalizationExtension
    dsimp only
    rw [if_neg (by simpa using hne)]
    rw [hnode_of_read env _ pkg hread, hread]
    dsimp only
    simp only [hc, hl]
    exact processLocalizations_error env _ locs e hmem hbad

/-- C9 (witness): the error cases exercised on concrete environments: a
regular file at the target path, a manifest without `contributes`, a manifest
without `localizations`, and a localization entry missing `languageName`. -/
theorem updateLocalization_errors_witness :
    (∃ m, updateLocalizationExtension envFileAt (some "/ext") = ScriptOutcome.error m) ∧
    (∃ m, updateLocalizationExtension envNoContrib (some "/ext") = ScriptOutcome.error m) ∧
    (∃ m, updateLocalizationExtension envNoLocs (some "/ext") = ScriptOutcome.error m) ∧
    updateLocalizationExtension envBadEntry (some "/ext") =
      ScriptOutcome.error "Each localization contribution must define properties." := by
  refine ⟨?_, ?_, ?_, ?_⟩
  · exact updateLocalization_errors.2.1 envFileAt "/ext" (by decide) (by decide)
  · exact updateLocalization_errors.2.2.1 envNoContrib "/ext" ⟨none⟩ (by decide)
      (by decide) (Or.inl rfl)
  · exact updateLocalization_errors.2.2.1 envNoLocs "/ext" ⟨some ⟨none⟩⟩ (by decide)
      (by decide) (Or.inr ⟨⟨none⟩, rfl, rfl⟩)
  · exact updateLocalization_errors.2.2.2 envBadEntry "/ext" ⟨some ⟨some [entryGood, entryBad]⟩⟩
      ⟨some [entryGood, entryBad]⟩ [entryGood, entryBad] entryBad (by decide) (by decide)
      rfl rfl (by decide) (Or.inr (Or.inl rfl))

/-! ## Infrastructure: lengths and the empty-old-list delta -/

theorem fixIndexes_length : ∀ (i : Nat) (l : List Folder),
    (fixIndexes i l).length = l.length
  | _, [] => rfl
  | i, _ :: fs => by simp [fixIndexes, fixIndexes_length (i + 1) fs]

theorem insertedFolders_length : ∀ (nid : Nat) (l : List FolderToAdd),
    (insertedFolders nid l).length = l.length
  | _, [] => rfl
  | nid, _ :: fs => by simp [insertedFolders, insertedFolders_length (nid + 1) fs]

theorem arrayDeltaLoop_nil_left (cmp : α → α → Ordering) (fuel : Nat) (ys : List α) :
    arrayDeltaLoop cmp fuel [] ys = ([], ys) := by
  cases fuel <;> rfl

theorem deltaFolders_nil_left (cmp : Folder → Folder → Ordering) (L : List Folder) :
    deltaFolders cmp [] L = ([], jsSort cmp L) := by
  unfold deltaFolders arrayDelta
  exact arrayDeltaLoop_nil_left cmp _ _

/-- C10: with no workspace at all (confirmed and unconfirmed both absent),
`updateWorkspaceFolders(ext, 0, 0, …nonEmptyValidInserts)` passes all
validations, sends the `$updateWorkspaceFolders` request to the proxy, and
then — instead of returning false as intended by the guard inside
`trySetWorkspaceData` — throws a `TypeError` while building the data object,
because `this._actualWorkspace.id` dereferences `undefined`.  The snapshots
remain unchanged.  This evaluates the code at the claim's failing input and
shows both halves of the divergence: the request is sent, and no `false`
return happens (the call aborts). -/
theorem updateWorkspaceFolders_noWorkspace (st : ExtHostWorkspaceState)
    (extName : String) (toAdd : List FolderToAdd)
    (hC : st.confirmed = none) (hU : st.unconfirmed = none)
    (hval : validateDistinct toAdd ≠ []) :
    (updateWorkspaceFolders st extName 0 0 toAdd).sent =
      some ⟨extName, 0, 0, validateDistinct toAdd⟩ ∧
    (updateWorkspaceFolders st extName 0 0 toAdd).accepted = Except.error "TypeError" ∧
    (updateWorkspaceFolders st extName 0 0 toAdd).state.confirmed = none ∧
    (updateWorkspaceFolders st extName 0 0 toAdd).state.unconfirmed = none := by
  have hact : actualWorkspace st = none := by
    unfold actualWorkspace
    rw [hU, hC]
  have hsorted_ne : jsSort compareWorkspaceFolderByUriAndNameAndIndex
      (fixIndexes 0 (insertedFolders st.nextId (validateDistinct toAdd))) ≠ [] := by
    intro hnil
    apply hval
    have := jsSort_length compareWorkspaceFolderByUriAndNameAndIndex
      (fixIndexes 0 (insertedFolders st.nextId (validateDistinct toAdd)))
    rw [hnil, fixIndexes_length, insertedFolders_length] at this
    exact List.length_eq_zero.mp this.symm
  unfold updateWorkspaceFolders
  rw [if_neg (by norm_num)]
  rw [if_neg (by intro hcon; exact hval hcon.2)]
  rw [hact]
  dsimp only [Option.elim]
  rw [if_neg (by norm_num)]
  simp only [Int.toNat_zero, List.take_nil, List.drop_nil, List.nil_append, List.append_nil,
    mutatedCurrent, fixIndexes, List.take, deltaFolders_nil_left]
  rw [if_neg (fun hcon => hsorted_ne hcon.1)]
  have hwr : writeActualFolders { st with nextId := st.nextId + (validateDistinct toAdd).length }
      [] = { st with nextId := st.nextId + (validateDistinct toAdd).length } := by
    unfold writeActualFolders
    rw [hU, hC]
  rw [hwr]
  have hact2 : actualWorkspace
      { st with nextId := st.nextId + (validateDistinct toAdd).length } = none := by
    unfold actualWorkspace
    rw [hU, hC]
  rw [hact2]
  exact ⟨rfl, rfl, hC, hU⟩

/-- C10 (witness): the theorem at the concrete empty state with one valid
folder to add. -/
theorem updateWorkspaceFolders_noWorkspace_witness :
    (updateWorkspaceFolders stEmpty "ext" 0 0 [⟨"/a", none⟩]).sent =
      some ⟨"ext", 0, 0, validateDistinct [⟨"/a", none⟩]⟩ ∧
    (updateWorkspaceFolders stEmpty "ext" 0 0 [⟨"/a", none⟩]).accepted =
      Except.error "TypeError" ∧
    (updateWorkspaceFolders stEmpty "ext" 0 0 [⟨"/a", none⟩]).state.confirmed = none ∧
    (updateWorkspaceFolders stEmpty "ext" 0 0 [⟨"/a", none⟩]).state.unconfirmed = none :=
  updateWorkspaceFolders_noWorkspace stEmpty "ext" [⟨"/a", none⟩] rfl rfl (by decide)

/-! ## Infrastructure: the index fix-up against an already renumbered list -/

theorem fixIndexes_map_index : ∀ (i : Nat) (l : List Folder),
    (fixIndexes i l).map Folder.index = (List.range' i l.length).map (fun m : Nat => (m : Int))
  | _, [] => rfl
  | i, f :: fs => by
    simp [fixIndexes, fixIndexes_map_index (i + 1) fs, List.range'_succ]

theorem folder_set_index_eq {f : Folder} {i : Int} (h : f.index = i) :
    ({ f with index := i } : Folder) = f := by
  cases f
  simp only at h
  simp [h]

theorem fixIndexes_id : ∀ (i : Nat) (l : List Folder),
    l.map Folder.index = (List.range' i l.length).map (fun m : Nat => (m : Int)) →
    fixIndexes i l = l
  | _, [], _ => rfl
  | i, f :: fs, h => by
    rw [List.length_cons, List.range'_succ, List.map_cons, List.map_cons] at h
    injection h with h1 h2
    rw [fixIndexes, fixIndexes_id (i + 1) fs h2, folder_set_index_eq h1]

theorem range'_cast_pairwise (s n : Nat) :
    ((List.range' s n).map (fun m : Nat => (m : Int))).Pairwise (· ≤ ·) := by
  have h := List.pairwise_lt_range' s n 1 (by norm_num)
  have h2 : (List.range' s n).Pairwise (fun a b : Nat => (a : Int) ≤ (b : Int)) :=
    h.imp (fun hab => by exact_mod_cast le_of_lt hab)
  exact List.pairwise_map.mpr h2

theorem writeActualFolders_self (st : ExtHostWorkspaceState) :
    writeActualFolders st
      ((actualWorkspace st).elim [] ExtHostWorkspaceImpl.workspaceFolders) = st := by
  obtain ⟨c, u, nid, ev⟩ := st
  rcases u with _ | w
  · rcases c with _ | w
    · rfl
    · rfl
  · rfl

/-- C3: `updateWorkspaceFolders` returns false and leaves both the confirmed
and unconfirmed snapshots unchanged whenever (a) `deleteCount` is 0 and the
validated insert list is empty, (b) `startIndex` or `deleteCount` is negative
(non-numeric arguments are excluded by typing), (c) `startIndex + deleteCount`
exceeds the current folder count, or (d) the delta of the edited (spliced and
renumbered) list against the current list is empty; in particular
`requestEdit(id, 0, 0, [])` always returns false.  The snapshot invariant that
the current folder list is sorted by ordinal (every snapshot is built that
way) is taken as a hypothesis; it is what makes the in-place renumbering a
no-op in case (d). -/
theorem updateWorkspaceFolders_noop (st : ExtHostWorkspaceState) (extName : String)
    (index deleteCount : Int) (toAdd : List FolderToAdd)
    (hsorted : ((actualWorkspace st).elim [] ExtHostWorkspaceImpl.workspaceFolders).Pairwise
      (fun a b => a.index ≤ b.index))
    (hcase :
      (deleteCount = 0 ∧ validateDistinct toAdd = []) ∨
      index < 0 ∨ deleteCount < 0 ∨
      ((((actualWorkspace st).elim [] ExtHostWorkspaceImpl.workspaceFolders).length : Int) <
        index + deleteCount) ∨
      deltaFolders compareWorkspaceFolderByUriAndNameAndIndex
        ((actualWorkspace st).elim [] ExtHostWorkspaceImpl.workspaceFolders)
        (fixIndexes 0
          (((actualWorkspace st).elim [] ExtHostWorkspaceImpl.workspaceFolders).take
              index.toNat ++
            insertedFolders st.nextId (validateDistinct toAdd) ++
            ((actualWorkspace st).elim [] ExtHostWorkspaceImpl.workspaceFolders).drop
              (index.toNat + deleteCount.toNat))) = ([], [])) :
    (updateWorkspaceFolders st extName index deleteCount toAdd).accepted = Except.ok false ∧
    (updateWorkspaceFolders st extName index deleteCount toAdd).state.confirmed =
      st.confirmed ∧
    (updateWorkspaceFolders st extName index deleteCount toAdd).state.unconfirmed =
      st.unconfirmed := by
  unfold updateWorkspaceFolders
  dsimp only
  by_cases h1 : index < 0 ∨ deleteCount < 0
  · rw [if_pos h1]
    exact ⟨rfl, rfl, rfl⟩
  rw [if_neg h1]
  by_cases h2 : deleteCount = 0 ∧ validateDistinct toAdd = []
  · rw [if_pos h2]
    exact ⟨rfl, rfl, rfl⟩
  rw [if_neg h2]
  by_cases h3 : ((((actualWorkspace st).elim [] ExtHostWorkspaceImpl.workspaceFolders).length :
      Int) < index + deleteCount)
  · rw [if_pos h3]
    exact ⟨rfl, rfl, rfl⟩
  rw [if_neg h3]
  set cur := (actualWorkspace st).elim [] ExtHostWorkspaceImpl.workspaceFolders with hcurdef
  set vald := validateDistinct toAdd with hvalddef
  set idx := index.toNat with hidxdef
  set dc := deleteCount.toNat with hdcdef
  set sp := cur.take idx ++ insertedFolders st.nextId vald ++ cur.drop (idx + dc) with hspdef
  have hdelta : deltaFolders compareWorkspaceFolderByUriAndNameAndIndex cur
      (fixIndexes 0 sp) = ([], []) := by
    rcases hcase with hc | hc | hc | hc | hc
    · exact absurd hc h2
    · exact absurd hc (fun h => h1 (Or.inl h))
    · exact absurd hc (fun h => h1 (Or.inr h))
    · exact absurd hc h3
    · exact hc
  have hidxnn : 0 ≤ index := le_of_not_lt (fun h => h1 (Or.inl h))
  have hdcnn : 0 ≤ deleteCount := le_of_not_lt (fun h => h1 (Or.inr h))
  have h3' : index + deleteCount ≤ (cur.length : Int) := le_of_not_lt h3
  have hidxdc : idx + dc ≤ cur.length := by omega
  have hidxle : idx ≤ cur.length := le_trans (Nat.le_add_right idx dc) hidxdc
  have hkey := perm_key_of_deltaFolders_uni_nil cur (fixIndexes 0 sp) hdelta
  have hlen : cur.length = (fixIndexes 0 sp).length := by
    have := hkey.length_eq
    simpa [List.length_map] using this
  have hsplen : sp.length = idx + vald.length + (cur.length - (idx + dc)) := by
    rw [hspdef]
    simp [List.length_append, List.length_take, List.length_drop, insertedFolders_length]
    omega
  have hins : vald.length = dc := by
    rw [fixIndexes_length] at hlen
    omega
  have hidxperm : (cur.map Folder.index).Perm ((fixIndexes 0 sp).map Folder.index) := by
    have h := hkey.map (fun t : Int × String × String => t.1)
    simpa [List.map_map, Function.comp] using h
  have hnewidx : (fixIndexes 0 sp).map Folder.index =
      (List.range' 0 cur.length).map (fun m : Nat => (m : Int)) := by
    rw [fixIndexes_map_index 0 sp]
    rw [hlen, fixIndexes_length]
  have hcuridx : cur.map Folder.index =
      (List.range' 0 cur.length).map (fun m : Nat => (m : Int)) := by
    refine eq_of_perm_of_pairwise_le (hidxperm.trans (by rw [hnewidx])) ?_ ?_
    · exact List.pairwise_map.mpr hsorted
    · exact range'_cast_pairwise 0 cur.length
  have htake : (cur.take idx).map Folder.index =
      (List.range' 0 idx).map (fun m : Nat => (m : Int)) := by
    rw [List.map_take, hcuridx, ← List.map_take]
    congr 1
    have happ : List.range' 0 idx ++ List.range' idx (cur.length - idx) =
        List.range' 0 cur.length := by
      have h := List.range'_append 0 idx (cur.length - idx) 1
      simpa [Nat.one_mul, Nat.sub_add_cancel hidxle] using h
    rw [← happ, List.take_left' (List.length_range' 0 1 idx)]
  have hdrop : (cur.drop (idx + dc)).map Folder.index =
      (List.range' (idx + dc) (cur.length - (idx + dc))).map (fun m : Nat => (m : Int)) := by
    rw [List.map_drop, hcuridx, ← List.map_drop]
    congr 1
    have happ : List.range' 0 (idx + dc) ++
        List.range' (idx + dc) (cur.length - (idx + dc)) = List.range' 0 cur.length := by
      have h := List.range'_append 0 (idx + dc) (cur.length - (idx + dc)) 1
      simpa [Nat.one_mul, Nat.sub_add_cancel hidxdc] using h
    rw [← happ, List.drop_left' (List.length_range' 0 1 (idx + dc))]
  have hfix1 : fixIndexes 0 (cur.take idx) = cur.take idx := by
    apply fixIndexes_id
    rw [htake]
    have hl : (cur.take idx).length = idx := by
      rw [List.length_take]
      omega
    rw [hl]
  have hfix2 : fixIndexes (idx + vald.length) (cur.drop (idx + dc)) = cur.drop (idx + dc) := by
    rw [hins]
    apply fixIndexes_id
    rw [hdrop, List.length_drop]
  have hmut : mutatedCurrent cur idx dc vald.length = cur := by
    unfold mutatedCurrent
    rw [hfix1, hfix2]
    rw [← List.drop_drop, List.append_assoc, List.take_append_drop, List.take_append_drop]
  rw [hmut, hdelta]
  rw [if_pos ⟨rfl, rfl⟩]
  have hwr := writeActualFolders_self { st with nextId := st.nextId + vald.length }
  have hact : actualWorkspace { st with nextId := st.nextId + vald.length } =
      actualWorkspace st := rfl
  rw [hact] at hwr
  rw [← hcurdef] at hwr
  rw [hwr]
  exact ⟨rfl, rfl, rfl⟩

/-- C3 (witness): the theorem applied at a concrete two-folder state, to the
no-op request `requestEdit(id, 0, 0, [])`. -/
theorem updateWorkspaceFolders_noop_witness :
    (updateWorkspaceFolders stAB "ext" 0 0 []).accepted = Except.ok false ∧
    (updateWorkspaceFolders stAB "ext" 0 0 []).state.confirmed = stAB.confirmed ∧
    (updateWorkspaceFolders stAB "ext" 0 0 []).state.unconfirmed = stAB.unconfirmed :=
  updateWorkspaceFolders_noop stAB "ext" 0 0 [] (by decide) (Or.inl ⟨rfl, by decide⟩)
